import Mathlib

/-
Verification of the TFC-to-S3 state-migration script
(src/tfc-to-s3-migration/main.py) against its design specification.

Python strings are modelled as lists of Unicode code points (`PyStr`),
so that slicing, case folding and character-class tests of the source
become plain `Nat` arithmetic.  The well-known-workspace collection is a
Python `set`, whose iteration order is unspecified; it is modelled as a
canonical list `WELL_KNOWN_WORKSPACES` together with quantification over
its permutations wherever a claim speaks about "the set".
-/

/-- A Python string, as its list of Unicode code points. -/
abbrev PyStr := List Nat

/-- Build a `PyStr` from a Lean string literal. -/
def pyStr (s : String) : PyStr := s.toList.map Char.toNat

/-- ASCII lower-casing of one code point, the case folding performed by
`re.IGNORECASE | re.ASCII` on the ASCII-only patterns of the source. -/
def asciiLower (c : Nat) : Nat := if 65 ≤ c ∧ c ≤ 90 then c + 32 else c

/-- Membership in the character class `[A-Za-z0-9]` of the negative
look-behind in `parse_prefixed_workspace`. -/
def isAsciiAlnum (c : Nat) : Bool :=
  (65 ≤ c && c ≤ 90) || (97 ≤ c && c ≤ 122) || (48 ≤ c && c ≤ 57)

/-- An ASCII regex word character (`\w` under `re.ASCII`): `[A-Za-z0-9_]`. -/
def isAsciiWord (c : Nat) : Bool := isAsciiAlnum c || c == 95

/-- `listStartsWith s p` holds when `p` is an initial segment of `s`.
Used to express "the pattern matches at this position" on reversed
strings (a suffix of the text is an initial segment of its reverse). -/
def listStartsWith : PyStr → PyStr → Bool
  | _, [] => true
  | [], _ :: _ => false
  | a :: s, b :: p => a == b && listStartsWith s p

/-- The well-known Terraform CLI workspace names of the source
(`WELL_KNOWN_WORKSPACES = {"default", "dev", "stg", "prod"}`), as a
canonical list standing for the Python set. -/
def WELL_KNOWN_WORKSPACES : List PyStr :=
  [pyStr "default", pyStr "dev", pyStr "stg", pyStr "prod"]

/-- Success of `re.search(f"(?<![A-Za-z0-9]){ws}\\b$", name, re.ASCII | re.IGNORECASE)`
with the match ending at the very end of `name`:
the case-folded pattern `ws` is a trailing segment of the case-folded
`name` (stated on reverses), the character before the match, if any, is
not in `[A-Za-z0-9]` (index `ws.length` of the reversed original text;
the default `32`, a space, makes the look-behind succeed at the start of
the string), and `\b` holds because the last pattern character is a word
character standing at end of string. -/
def matchAtEos (name ws : PyStr) : Bool :=
  listStartsWith ((name.map asciiLower).reverse) ws.reverse
    && !(isAsciiAlnum (name.reverse.getD ws.length 32))
    && isAsciiWord (ws.reverse.headD 32)

/-- Success of the same search with the match ending just before a single
trailing newline: in Python, `$` (without `re.MULTILINE`) also matches
immediately before a newline that ends the string.  `\b` holds because
the following character `\n` (code 10) is not a word character. -/
def matchBeforeNl (name ws : PyStr) : Bool :=
  name.reverse.headD 32 == 10
    && listStartsWith ((name.map asciiLower).reverse).tail ws.reverse
    && !(isAsciiAlnum (name.reverse.tail.getD ws.length 32))
    && isAsciiWord (ws.reverse.headD 32)

/-- Full model of the `re.search` call of `parse_prefixed_workspace`:
the end-anchored pattern matches at end of string or just before a
trailing newline. -/
def reSearchWsEnd (name ws : PyStr) : Bool :=
  matchAtEos name ws || matchBeforeNl name ws

/-- `parse_prefixed_workspace(name, well_known_workspaces)` from the
source (lines 196-214): the first well-known workspace name (in iteration
order `o`) whose end-anchored search succeeds is stripped together with
one separator character (`name[:-len(ws) - 1]`, which is
`name.take (name.length - ws.length - 1)` with truncated subtraction,
exactly like Python clamping a negative slice bound to the empty string);
if none matches, `(name, "")` is returned. -/
def parse_prefixed_workspace (o : List PyStr) (name : PyStr) : PyStr × PyStr :=
  match o with
  | [] => (name, [])
  | ws :: rest =>
    if reSearchWsEnd name ws then (name.take (name.length - ws.length - 1), ws)
    else parse_prefixed_workspace rest name

/-- The destination-key computation of `main` (lines 349-356):
`not workspace or workspace in ["default"]` selects
`f"{state_name}/terraform.tfstate"`, anything else selects
`f"env:/{workspace}/{state_name}/terraform.tfstate"`. -/
def derive_s3_key (o : List PyStr) (name : PyStr) : PyStr :=
  let ps := parse_prefixed_workspace o name
  if ps.2 = [] ∨ ps.2 = pyStr "default" then ps.1 ++ pyStr "/terraform.tfstate"
  else pyStr "env:/" ++ ps.2 ++ pyStr "/" ++ ps.1 ++ pyStr "/terraform.tfstate"

/-- The claim C2's own notion of a known suffix occurring as a trailing
whole word, written from the spec's words: the name ends with the suffix,
case-insensitively, and the character immediately before the suffix, if
any, is not alphanumeric.  (Trailing position is expressed on reversed
lists; index `ws.length` of the reversed name is the character
immediately before the suffix, and the default `32` covers "if any".) -/
def specTrailingWholeWord (name ws : PyStr) : Bool :=
  listStartsWith ((name.map asciiLower).reverse) ((ws.map asciiLower).reverse)
    && !(isAsciiAlnum (name.reverse.getD ws.length 32))

theorem listStartsWith_nil (s : PyStr) : listStartsWith s [] = true := by
  cases s <;> rfl

theorem listStartsWith_cons_cons (a b : Nat) (s p : PyStr) :
    listStartsWith (a :: s) (b :: p) = (a == b && listStartsWith s p) := rfl

/-- Two initial segments of the same list are comparable. -/
theorem listStartsWith_comparable :
    ∀ (s p q : PyStr), listStartsWith s p = true → listStartsWith s q = true →
      listStartsWith p q = true ∨ listStartsWith q p = true := by
  intro s
  induction s with
  | nil =>
    intro p q hp hq
    cases p with
    | nil => right; exact listStartsWith_nil q
    | cons b p => simp [listStartsWith] at hp
  | cons a s ih =>
    intro p q hp hq
    cases p with
    | nil => right; exact listStartsWith_nil q
    | cons b p =>
      cases q with
      | nil => left; exact listStartsWith_nil (b :: p)
      | cons c q =>
        rw [listStartsWith_cons_cons, Bool.and_eq_true, beq_iff_eq] at hp hq
        rcases ih p q hp.2 hq.2 with h | h
        · left; rw [listStartsWith_cons_cons, Bool.and_eq_true, beq_iff_eq]
          exact ⟨hp.1 ▸ hq.1 ▸ rfl, h⟩
        · right; rw [listStartsWith_cons_cons, Bool.and_eq_true, beq_iff_eq]
          exact ⟨hq.1 ▸ hp.1 ▸ rfl, h⟩

/-- A nonempty initial segment fixes the head. -/
theorem listStartsWith_headD (s p : PyStr) (d : Nat)
    (h : listStartsWith s p = true) (hp : p ≠ []) : s.headD d = p.headD d := by
  cases p with
  | nil => exact absurd rfl hp
  | cons b p =>
    cases s with
    | nil => simp [listStartsWith] at h
    | cons a s =>
      rw [listStartsWith_cons_cons, Bool.and_eq_true, beq_iff_eq] at h
      simp [h.1]

/-- A list is an initial segment of itself followed by anything. -/
theorem listStartsWith_append (p t : PyStr) : listStartsWith (p ++ t) p = true := by
  induction p with
  | nil => exact listStartsWith_nil t
  | cons a p ih => rw [List.cons_append, listStartsWith_cons_cons]; simp [ih]

theorem getD_append_cons (l : PyStr) (c : Nat) (t : PyStr) (d : Nat) :
    (l ++ c :: t).getD l.length d = c := by
  induction l with
  | nil => rfl
  | cons a l ih => simpa using ih

theorem reverse_append_cons (A : PyStr) (c : Nat) (B : PyStr) :
    (A ++ c :: B).reverse = B.reverse ++ c :: A.reverse := by
  simp

/-- Every well-known workspace name is already lower-case. -/
theorem wkw_lower : ∀ w ∈ WELL_KNOWN_WORKSPACES, w.map asciiLower = w := by decide

/-- Every well-known workspace name ends in a word character. -/
theorem wkw_word : ∀ w ∈ WELL_KNOWN_WORKSPACES, isAsciiWord (w.reverse.headD 32) = true := by
  decide

/-- Every well-known workspace name is nonempty (so is its reverse). -/
theorem wkw_ne_nil : ∀ w ∈ WELL_KNOWN_WORKSPACES, w.reverse ≠ [] := by decide

theorem matchAtEos_starts {name ws : PyStr} (h : matchAtEos name ws = true) :
    listStartsWith ((name.map asciiLower).reverse) ws.reverse = true := by
  unfold matchAtEos at h
  simp only [Bool.and_eq_true] at h
  exact h.1.1

theorem matchBeforeNl_starts {name ws : PyStr} (h : matchBeforeNl name ws = true) :
    listStartsWith ((name.map asciiLower).reverse).tail ws.reverse = true := by
  unfold matchBeforeNl at h
  simp only [Bool.and_eq_true] at h
  exact h.1.1.2

theorem matchBeforeNl_headNl {name ws : PyStr} (h : matchBeforeNl name ws = true) :
    name.reverse.headD 32 = 10 := by
  unfold matchBeforeNl at h
  simp only [Bool.and_eq_true, beq_iff_eq] at h
  exact h.1.1.1

theorem headD_map_asciiLower (l : PyStr) :
    (l.map asciiLower).headD 32 = asciiLower (l.headD 32) := by
  cases l <;> rfl

/-- If the match succeeded just before a trailing newline, the name ends
with a newline (code point 10). -/
theorem matchBeforeNl_lastNl {name ws : PyStr} (h : matchBeforeNl name ws = true) :
    name.getLast? = some 10 := by
  have h1 := matchBeforeNl_headNl h
  cases hnr : name.reverse with
  | nil => rw [hnr] at h1; simp [List.headD] at h1
  | cons a t =>
    rw [hnr] at h1
    simp only [List.headD] at h1
    have hname : name = t.reverse ++ [a] := by
      rw [← List.reverse_reverse name, hnr]; simp
    rw [hname, h1]
    exact List.getLast?_concat _

/-- The lower-cased reversed name starts with the same code point as the
reversed name, up to `asciiLower` (and `asciiLower 32 = 32`). -/
theorem lowerRev_headD (name : PyStr) :
    ((name.map asciiLower).reverse).headD 32 = asciiLower (name.reverse.headD 32) := by
  rw [← List.map_reverse]
  exact headD_map_asciiLower name.reverse

/-- At most one well-known workspace name can match a given workspace
name: distinct members of the set are never trailing segments of one
another (with or without the trailing-newline variant of `$`), so the
set's unspecified iteration order cannot change the result. -/
theorem reSearch_unique (name w₁ w₂ : PyStr)
    (h₁ : w₁ ∈ WELL_KNOWN_WORKSPACES) (h₂ : w₂ ∈ WELL_KNOWN_WORKSPACES)
    (m₁ : reSearchWsEnd name w₁ = true) (m₂ : reSearchWsEnd name w₂ = true) :
    w₁ = w₂ := by
  have hne₁ := wkw_ne_nil w₁ h₁
  have hne₂ := wkw_ne_nil w₂ h₂
  have m₁' : matchAtEos name w₁ = true ∨ matchBeforeNl name w₁ = true := by
    simpa [reSearchWsEnd] using m₁
  have m₂' : matchAtEos name w₂ = true ∨ matchBeforeNl name w₂ = true := by
    simpa [reSearchWsEnd] using m₂
  rcases m₁' with e₁ | n₁ <;> rcases m₂' with e₂ | n₂
  · -- both match at end of string: the reversed suffixes are comparable
    have comp := listStartsWith_comparable _ _ _ (matchAtEos_starts e₁) (matchAtEos_starts e₂)
    clear m₁ m₂ e₁ e₂
    simp only [WELL_KNOWN_WORKSPACES, List.mem_cons, List.not_mem_nil, or_false] at h₁ h₂
    rcases h₁ with rfl | rfl | rfl | rfl <;> rcases h₂ with rfl | rfl | rfl | rfl <;>
      first
      | rfl
      | (rcases comp with hc | hc <;> exact absurd hc (by decide))
  · -- one match at end of string, the other before a trailing newline: impossible
    exfalso
    have h10 : ((name.map asciiLower).reverse).headD 32 = 10 := by
      rw [lowerRev_headD, matchBeforeNl_headNl n₂]
      decide
    have hh := listStartsWith_headD _ _ 32 (matchAtEos_starts e₁) hne₁
    rw [h10] at hh
    clear m₁ m₂ e₁ n₂
    simp only [WELL_KNOWN_WORKSPACES, List.mem_cons, List.not_mem_nil, or_false] at h₁
    rcases h₁ with rfl | rfl | rfl | rfl <;> exact absurd hh (by decide)
  · -- symmetric impossible case
    exfalso
    have h10 : ((name.map asciiLower).reverse).headD 32 = 10 := by
      rw [lowerRev_headD, matchBeforeNl_headNl n₁]
      decide
    have hh := listStartsWith_headD _ _ 32 (matchAtEos_starts e₂) hne₂
    rw [h10] at hh
    clear m₁ m₂ n₁ e₂
    simp only [WELL_KNOWN_WORKSPACES, List.mem_cons, List.not_mem_nil, or_false] at h₂
    rcases h₂ with rfl | rfl | rfl | rfl <;> exact absurd hh (by decide)
  · -- both match before a trailing newline: comparable on the tail
    have comp := listStartsWith_comparable _ _ _ (matchBeforeNl_starts n₁) (matchBeforeNl_starts n₂)
    clear m₁ m₂ n₁ n₂
    simp only [WELL_KNOWN_WORKSPACES, List.mem_cons, List.not_mem_nil, or_false] at h₁ h₂
    rcases h₁ with rfl | rfl | rfl | rfl <;> rcases h₂ with rfl | rfl | rfl | rfl <;>
      first
      | rfl
      | (rcases comp with hc | hc <;> exact absurd hc (by decide))

/-- If `ws` is the unique matching member of the scanned list, the scan
returns the stripped name and `ws`. -/
theorem parse_eq_of_match {o : List PyStr} {name ws : PyStr} (hmem : ws ∈ o)
    (hm : reSearchWsEnd name ws = true)
    (huniq : ∀ w ∈ o, reSearchWsEnd name w = true → w = ws) :
    parse_prefixed_workspace o name = (name.take (name.length - ws.length - 1), ws) := by
  induction o with
  | nil => cases hmem
  | cons a rest ih =>
    rcases List.mem_cons.mp hmem with rfl | hmem'
    · simp [parse_prefixed_workspace, hm]
    · by_cases ha : reSearchWsEnd name a = true
      · have haws := huniq a (List.mem_cons_self a rest) ha
        subst haws
        simp [parse_prefixed_workspace, hm]
      · rw [Bool.not_eq_true] at ha
        simp only [parse_prefixed_workspace, ha, Bool.false_eq_true, if_false]
        exact ih hmem' fun w hw hmw => huniq w (List.mem_cons_of_mem a hw) hmw

/-- If nothing in the scanned list matches, the scan returns the name
with an empty workspace. -/
theorem parse_eq_of_no_match {o : List PyStr} {name : PyStr}
    (h : ∀ w ∈ o, reSearchWsEnd name w = false) :
    parse_prefixed_workspace o name = (name, []) := by
  induction o with
  | nil => rfl
  | cons a rest ih =>
    simp only [parse_prefixed_workspace, h a (List.mem_cons_self a rest),
      Bool.false_eq_true, if_false]
    exact ih fun w hw => h w (List.mem_cons_of_mem a hw)

/-- The result of `parse_prefixed_workspace` does not depend on which
permutation of the well-known set is scanned. -/
theorem parse_perm_eq {o₁ o₂ : List PyStr} (name : PyStr)
    (h₁ : o₁.Perm WELL_KNOWN_WORKSPACES) (h₂ : o₂.Perm WELL_KNOWN_WORKSPACES) :
    parse_prefixed_workspace o₁ name = parse_prefixed_workspace o₂ name := by
  by_cases hex : ∃ ws ∈ WELL_KNOWN_WORKSPACES, reSearchWsEnd name ws = true
  · obtain ⟨ws, hmem, hm⟩ := hex
    rw [parse_eq_of_match (h₁.mem_iff.mpr hmem) hm
          (fun w hw hmw => reSearch_unique name w ws (h₁.subset hw) hmem hmw hm),
        parse_eq_of_match (h₂.mem_iff.mpr hmem) hm
          (fun w hw hmw => reSearch_unique name w ws (h₂.subset hw) hmem hmw hm)]
  · push_neg at hex
    have hfalse : ∀ (o : List PyStr), o.Perm WELL_KNOWN_WORKSPACES →
        ∀ w ∈ o, reSearchWsEnd name w = false := by
      intro o ho w hw
      have := hex w (ho.subset hw)
      revert this
      cases reSearchWsEnd name w <;> simp
    rw [parse_eq_of_no_match (hfalse o₁ h₁), parse_eq_of_no_match (hfalse o₂ h₂)]

/-- For any prefix `P` and well-known suffix `S`, the end-anchored search
succeeds on `P ++ "-" ++ S`. -/
theorem reSearch_appended (P S : PyStr) (hS : S ∈ WELL_KNOWN_WORKSPACES) :
    reSearchWsEnd (P ++ 45 :: S) S = true := by
  have hlow := wkw_lower S hS
  have hword := wkw_word S hS
  have hdash : asciiLower 45 = 45 := by decide
  have hmap : (P ++ 45 :: S).map asciiLower = P.map asciiLower ++ 45 :: S := by
    rw [List.map_append, List.map_cons, hdash, hlow]
  unfold reSearchWsEnd matchAtEos
  rw [hmap, reverse_append_cons, reverse_append_cons]
  have hstart := listStartsWith_append S.reverse (45 :: (P.map asciiLower).reverse)
  have hlook : (S.reverse ++ 45 :: P.reverse).getD S.length 32 = 45 := by
    rw [← List.length_reverse S]
    exact getD_append_cons _ _ _ _
  rw [hstart, hlook, hword]
  have halnum : isAsciiAlnum 45 = false := by decide
  rw [halnum]
  simp

/-- Scanning any permutation of the well-known set over `P ++ "-" ++ S`
returns `(P, S)`. -/
theorem parse_appended {o : List PyStr} (P S : PyStr)
    (ho : o.Perm WELL_KNOWN_WORKSPACES) (hS : S ∈ WELL_KNOWN_WORKSPACES) :
    parse_prefixed_workspace o (P ++ 45 :: S) = (P, S) := by
  have hm := reSearch_appended P S hS
  rw [parse_eq_of_match (ho.mem_iff.mpr hS) hm
      (fun w hw hmw => reSearch_unique _ w S (ho.subset hw) hS hmw hm)]
  have hlen : (P ++ 45 :: S).length - S.length - 1 = P.length := by
    simp only [List.length_append, List.length_cons]
    omega
  rw [hlen]
  have htake : (P ++ 45 :: S).take P.length = P := List.take_left P (45 :: S)
  rw [htake]

/-- C1: for every prefix string `P` and every suffix `S` in
{"default", "dev", "stg", "prod"}, `parse_prefixed_workspace` applied to
the name `P + "-" + S` with the well-known suffix set (any iteration
order of it) returns the pair `(P, S)`. -/
theorem C1_parse_prefixed_name (P S : PyStr) (o : List PyStr)
    (hS : S ∈ WELL_KNOWN_WORKSPACES) (ho : o.Perm WELL_KNOWN_WORKSPACES) :
    parse_prefixed_workspace o (P ++ pyStr "-" ++ S) = (P, S) := by
  have hdash : pyStr "-" = [45] := by decide
  rw [hdash, List.append_assoc, List.singleton_append]
  exact parse_appended P S ho hS

theorem C1_witness :
    ((pyStr "dev" ∈ WELL_KNOWN_WORKSPACES) ∧
      WELL_KNOWN_WORKSPACES.Perm WELL_KNOWN_WORKSPACES) ∧
    parse_prefixed_workspace WELL_KNOWN_WORKSPACES
        (pyStr "backend_svc" ++ pyStr "-" ++ pyStr "dev") =
      (pyStr "backend_svc", pyStr "dev") :=
  ⟨⟨by decide, List.Perm.refl _⟩,
    C1_parse_prefixed_name (pyStr "backend_svc") (pyStr "dev") WELL_KNOWN_WORKSPACES
      (by decide) (List.Perm.refl _)⟩

/-- C2 is false as stated: in the name "x-dev\n" no known suffix occurs
as a trailing whole word in the claim's sense (the name ends with a
newline, not with a suffix), yet `parse_prefixed_workspace` does not
return `(name, "")` — Python's `$` also matches just before a trailing
newline, so "dev" is stripped together with the separator. -/
theorem C2_counterexample :
    (∀ ws ∈ WELL_KNOWN_WORKSPACES,
        specTrailingWholeWord (pyStr "x-dev\n") ws = false) ∧
    parse_prefixed_workspace WELL_KNOWN_WORKSPACES (pyStr "x-dev\n") ≠
      (pyStr "x-dev\n", []) := by
  decide

theorem matchAtEos_implies_spec (name ws : PyStr) (hws : ws ∈ WELL_KNOWN_WORKSPACES)
    (h : matchAtEos name ws = true) : specTrailingWholeWord name ws = true := by
  have hlow := wkw_lower ws hws
  unfold matchAtEos at h
  simp only [Bool.and_eq_true] at h
  unfold specTrailingWholeWord
  rw [hlow]
  simp only [Bool.and_eq_true]
  exact ⟨h.1.1, h.1.2⟩

/-- C2 (amended): for every name that does not end with a newline and in
which no known suffix occurs as a trailing whole word (name ends with
the suffix case-insensitively, preceded, if at all, by a
non-alphanumeric character), `parse_prefixed_workspace` returns
`(name, "")`; in particular a partial-word occurrence such as "dev"
inside "mydevops" does not match. -/
theorem C2_no_trailing_suffix_amended (name : PyStr) (o : List PyStr)
    (ho : o.Perm WELL_KNOWN_WORKSPACES)
    (hnl : name.getLast? ≠ some 10)
    (hno : ∀ ws ∈ WELL_KNOWN_WORKSPACES, specTrailingWholeWord name ws = false) :
    parse_prefixed_workspace o name = (name, []) := by
  apply parse_eq_of_no_match
  intro w hw
  have hwk := ho.subset hw
  cases hmatch : reSearchWsEnd name w with
  | false => rfl
  | true =>
    exfalso
    have hmatch' : matchAtEos name w = true ∨ matchBeforeNl name w = true := by
      simpa [reSearchWsEnd] using hmatch
    rcases hmatch' with heos | hbnl
    · have := matchAtEos_implies_spec name w hwk heos
      rw [hno w hwk] at this
      exact Bool.false_ne_true this
    · exact hnl (matchBeforeNl_lastNl hbnl)

theorem C2_witness :
    (WELL_KNOWN_WORKSPACES.Perm WELL_KNOWN_WORKSPACES ∧
      (pyStr "mydevops").getLast? ≠ some 10 ∧
      (∀ ws ∈ WELL_KNOWN_WORKSPACES,
        specTrailingWholeWord (pyStr "mydevops") ws = false)) ∧
    parse_prefixed_workspace WELL_KNOWN_WORKSPACES (pyStr "mydevops") =
      (pyStr "mydevops", []) :=
  ⟨⟨List.Perm.refl _, by decide, by decide⟩,
    C2_no_trailing_suffix_amended (pyStr "mydevops") WELL_KNOWN_WORKSPACES
      (List.Perm.refl _) (by decide) (by decide)⟩

/-- C3: for every workspace whose name parses to `(prefix, suffix)`: if
the suffix is "" or "default" the destination S3 object key is
`{prefix}/terraform.tfstate`, and for any other suffix it is
`env:/{suffix}/{prefix}/terraform.tfstate`. -/
theorem C3_destination_key (o : List PyStr) (name p s : PyStr)
    (h : parse_prefixed_workspace o name = (p, s)) :
    derive_s3_key o name =
      if s = [] ∨ s = pyStr "default" then p ++ pyStr "/terraform.tfstate"
      else pyStr "env:/" ++ s ++ pyStr "/" ++ p ++ pyStr "/terraform.tfstate" := by
  unfold derive_s3_key
  rw [h]

theorem C3_witness :
    (parse_prefixed_workspace WELL_KNOWN_WORKSPACES (pyStr "backend_svc-dev") =
      (pyStr "backend_svc", pyStr "dev")) ∧
    derive_s3_key WELL_KNOWN_WORKSPACES (pyStr "backend_svc-dev") =
      if pyStr "dev" = [] ∨ pyStr "dev" = pyStr "default" then
        pyStr "backend_svc" ++ pyStr "/terraform.tfstate"
      else pyStr "env:/" ++ pyStr "dev" ++ pyStr "/" ++ pyStr "backend_svc" ++
        pyStr "/terraform.tfstate" :=
  ⟨by decide,
    C3_destination_key WELL_KNOWN_WORKSPACES (pyStr "backend_svc-dev")
      (pyStr "backend_svc") (pyStr "dev") (by decide)⟩

/-- C4: for every workspace name, the result of
`parse_prefixed_workspace` is the same under every iteration order of
the set {"default", "dev", "stg", "prod"} (at most one of the four
suffixes can match any given name as a trailing whole word), so two runs
over the same name derive the identical destination key. -/
theorem C4_order_independence (name : PyStr) (o₁ o₂ : List PyStr)
    (h₁ : o₁.Perm WELL_KNOWN_WORKSPACES) (h₂ : o₂.Perm WELL_KNOWN_WORKSPACES) :
    parse_prefixed_workspace o₁ name = parse_prefixed_workspace o₂ name ∧
    derive_s3_key o₁ name = derive_s3_key o₂ name := by
  have hp := parse_perm_eq name h₁ h₂
  refine ⟨hp, ?_⟩
  unfold derive_s3_key
  rw [hp]

theorem C4_witness :
    (WELL_KNOWN_WORKSPACES.Perm WELL_KNOWN_WORKSPACES ∧
      WELL_KNOWN_WORKSPACES.reverse.Perm WELL_KNOWN_WORKSPACES) ∧
    (parse_prefixed_workspace WELL_KNOWN_WORKSPACES (pyStr "backend_svc-dev") =
        parse_prefixed_workspace WELL_KNOWN_WORKSPACES.reverse (pyStr "backend_svc-dev") ∧
      derive_s3_key WELL_KNOWN_WORKSPACES (pyStr "backend_svc-dev") =
        derive_s3_key WELL_KNOWN_WORKSPACES.reverse (pyStr "backend_svc-dev")) :=
  ⟨⟨List.Perm.refl _, List.reverse_perm _⟩,
    C4_order_independence (pyStr "backend_svc-dev") WELL_KNOWN_WORKSPACES
      WELL_KNOWN_WORKSPACES.reverse (List.Perm.refl _) (List.reverse_perm _)⟩

/-- C10: for every workspace whose name is exactly one of the known
suffixes, `parse_prefixed_workspace` returns the empty string as prefix
together with that suffix (Python's negative slice bound clamps to the
empty string), so the derived destination key is "/terraform.tfstate"
for the name "default" and "env:/{suffix}//terraform.tfstate" (with an
empty prefix segment) for "dev", "stg" and "prod". -/
theorem C10_bare_suffix_names (o : List PyStr) (ho : o.Perm WELL_KNOWN_WORKSPACES) :
    parse_prefixed_workspace o (pyStr "default") = ([], pyStr "default") ∧
    parse_prefixed_workspace o (pyStr "dev") = ([], pyStr "dev") ∧
    parse_prefixed_workspace o (pyStr "stg") = ([], pyStr "stg") ∧
    parse_prefixed_workspace o (pyStr "prod") = ([], pyStr "prod") ∧
    derive_s3_key o (pyStr "default") = pyStr "/terraform.tfstate" ∧
    derive_s3_key o (pyStr "dev") = pyStr "env:/dev//terraform.tfstate" ∧
    derive_s3_key o (pyStr "stg") = pyStr "env:/stg//terraform.tfstate" ∧
    derive_s3_key o (pyStr "prod") = pyStr "env:/prod//terraform.tfstate" := by
  have h : ∀ name : PyStr, parse_prefixed_workspace o name =
      parse_prefixed_workspace WELL_KNOWN_WORKSPACES name :=
    fun name => parse_perm_eq name ho (List.Perm.refl _)
  have hk : ∀ name : PyStr, derive_s3_key o name =
      derive_s3_key WELL_KNOWN_WORKSPACES name := by
    intro name
    unfold derive_s3_key
    rw [h name]
  refine ⟨?_, ?_, ?_, ?_, ?_, ?_, ?_, ?_⟩
  · rw [h]; decide
  · rw [h]; decide
  · rw [h]; decide
  · rw [h]; decide
  · rw [hk]; decide
  · rw [hk]; decide
  · rw [hk]; decide
  · rw [hk]; decide

theorem C10_witness :
    WELL_KNOWN_WORKSPACES.Perm WELL_KNOWN_WORKSPACES ∧
    (parse_prefixed_workspace WELL_KNOWN_WORKSPACES (pyStr "default") =
        ([], pyStr "default") ∧
      parse_prefixed_workspace WELL_KNOWN_WORKSPACES (pyStr "dev") = ([], pyStr "dev") ∧
      parse_prefixed_workspace WELL_KNOWN_WORKSPACES (pyStr "stg") = ([], pyStr "stg") ∧
      parse_prefixed_workspace WELL_KNOWN_WORKSPACES (pyStr "prod") = ([], pyStr "prod") ∧
      derive_s3_key WELL_KNOWN_WORKSPACES (pyStr "default") = pyStr "/terraform.tfstate" ∧
      derive_s3_key WELL_KNOWN_WORKSPACES (pyStr "dev") =
        pyStr "env:/dev//terraform.tfstate" ∧
      derive_s3_key WELL_KNOWN_WORKSPACES (pyStr "stg") =
        pyStr "env:/stg//terraform.tfstate" ∧
      derive_s3_key WELL_KNOWN_WORKSPACES (pyStr "prod") =
        pyStr "env:/prod//terraform.tfstate") :=
  ⟨List.Perm.refl _, C10_bare_suffix_names WELL_KNOWN_WORKSPACES (List.Perm.refl _)⟩

/-
Model of the per-workspace processing loop of `main` (lines 232-383).

Every observable action of the loop (remote lock/unlock calls, the S3
upload, local directory creation and file writes, and each `LOG.*` call)
is recorded as an `Event` in order of occurrence.  The remote service
and the local cache directory are abstracted by `Env`; command-line
options by `Config`.  The enumerated workspaces are passed as the list
the loop iterates over (`-l` truncation corresponds to truncating that
list).  HTTP transport failures, which the loop does not catch and which
would abort the whole run, and the KeyboardInterrupt path are outside
this model; `TFCHTTPConflict` arises at the lock call and
`TFCHTTPNotFound` at the metadata fetch, as in the source.
-/

/-- A workspace record as enumerated from TFC (`ws[0]` in the source is
the full JSON object; Python compares such records structurally, modelled
by `DecidableEq`). -/
structure Workspace where
  name : PyStr
  wid : Nat
deriving DecidableEq

/-- The state-version metadata of a workspace; the loop only reads
`attributes.hosted-state-download-url` from it. -/
structure Metadata where
  downloadUrl : PyStr
deriving DecidableEq

/-- Outcome of `tfc.workspaces.lock`: success, or `TFCHTTPConflict`. -/
inductive LockOutcome
  | ok
  | conflict
deriving DecidableEq

/-- Outcome of `tfc.state_versions.get_current`: metadata, or
`TFCHTTPNotFound`. -/
inductive MetaOutcome
  | found (m : Metadata)
  | notFound
deriving DecidableEq

/-- The remote services and the local cache directory, fixed for a run.
`cache w` describes the cached metadata file for workspace `w`:
`none` = no file, `some none` = file exists but is corrupt (fails JSON
parsing), `some (some m)` = file exists and parses to `m`. -/
structure Env where
  lock : Workspace → LockOutcome
  unlockConflict : Workspace → Bool
  meta : Workspace → MetaOutcome
  content : Metadata → List Nat
  cache : Workspace → Option (Option Metadata)
  cacheDirPreexists : Bool

/-- The command-line options relevant to the loop. -/
structure Config where
  skipLock : Bool
  dryRun : Bool
  cacheDir : Bool
  bucket : PyStr
  stats : Bool
deriving DecidableEq

/-- One tag per distinct `LOG.*` call site along the modelled paths. -/
inductive LogTag
  | dryRunBanner
  | cachingTo
  | locking
  | fetchingMetadata
  | readingMetaFile
  | metaFileCorrupted
  | metaCorruptWarn
  | requestingMetadata
  | noStoredState
  | writingMetaFile
  | fetchingTfstate
  | downloadingTfstate
  | writingTfstateFile
  | wsNoStates
  | wsLockedSkipping
  | unlocking
  | ignoringUnlockError
  | uploadingTfstate
  | wouldUploadTfstate
  | uploadedInfo
  | wouldHaveUploadedInfo
  | processedInfo
  | skippedListDebug
  | savingSkipped
  | statsTotal
  | statsUploaded
  | statsSkipped
deriving DecidableEq

/-- An observable action of the run, in order of occurrence.  File
writes fold the accompanying `os.chmod` into the same event. -/
inductive Event
  | lockCall (w : Workspace)
  | unlockCall (w : Workspace)
  | uploadCall (bucket key : PyStr) (data : List Nat)
  | mkdirCall
  | fileWrite (path : PyStr)
  | logMsg (tag : LogTag)
deriving DecidableEq

/-- Side effects in the sense of claim C7: lock, unlock, object-store
upload, directory creation and local file writes.  Log output is not a
side effect. -/
def Event.isSideEffect : Event → Bool
  | Event.lockCall _ => true
  | Event.unlockCall _ => true
  | Event.uploadCall _ _ _ => true
  | Event.mkdirCall => true
  | Event.fileWrite _ => true
  | Event.logMsg _ => false

/-- The guard under which the lock attempt of lines 287-290 raises
`TFCHTTPConflict`: locking is attempted only when neither `--skip-lock`
nor `--dry-run` is set. -/
def lockConflicts (cfg : Config) (env : Env) (w : Workspace) : Bool :=
  !cfg.skipLock && !cfg.dryRun && (env.lock w == LockOutcome.conflict)

/-- Events of the lock attempt (lines 287-290). -/
def lockEvents (cfg : Config) (env : Env) (w : Workspace) : List Event :=
  if !cfg.skipLock && !cfg.dryRun then [Event.logMsg LogTag.locking, Event.lockCall w]
  else []

/-- Events of the `finally` block (lines 338-347): the unlock attempt,
with a conflicting unlock swallowed after a debug log. -/
def unlockEvents (cfg : Config) (env : Env) (w : Workspace) : List Event :=
  if !cfg.skipLock && !cfg.dryRun then
    [Event.logMsg LogTag.unlocking, Event.unlockCall w] ++
      (if env.unlockConflict w then [Event.logMsg LogTag.ignoringUnlockError] else [])
  else []

/-- Result of one `get_tfstate_metadata` call: metadata, or the raised
`json.JSONDecodeError`, or the raised `TFCHTTPNotFound`. -/
inductive MetaFetchResult
  | ok (m : Metadata)
  | jsonError
  | notFound
deriving DecidableEq

/-- `get_tfstate_metadata` (lines 129-167).  `withFile` says whether a
`metadata_file` argument was passed; `if withFile then env.cache w else
none` models `metadata_file and os.path.isfile(metadata_file)`.  A
cached file that parses is returned as is; a corrupt one raises after a
debug log; otherwise the metadata is fetched live and, when a file was
given and not in dry-run mode, written back to the cache. -/
def get_tfstate_metadata (cfg : Config) (env : Env) (w : Workspace) (withFile : Bool) :
    List Event × MetaFetchResult :=
  match (if withFile then env.cache w else none) with
  | some (some m) => ([Event.logMsg LogTag.readingMetaFile], MetaFetchResult.ok m)
  | some none =>
    ([Event.logMsg LogTag.readingMetaFile, Event.logMsg LogTag.metaFileCorrupted],
      MetaFetchResult.jsonError)
  | none =>
    match env.meta w with
    | MetaOutcome.notFound =>
      ([Event.logMsg LogTag.requestingMetadata, Event.logMsg LogTag.noStoredState],
        MetaFetchResult.notFound)
    | MetaOutcome.found m =>
      (Event.logMsg LogTag.requestingMetadata ::
        (if withFile && !cfg.dryRun then
          [Event.logMsg LogTag.writingMetaFile,
            Event.fileWrite (w.name ++ pyStr ".meta.json")]
        else []),
        MetaFetchResult.ok m)

/-- The metadata block of the loop (lines 293-308): fetch (with the
cache file when `--cache-dir` is set); on `json.JSONDecodeError` log a
warning and fall back to a live fetch without a file.  Returns the
events and the metadata, `none` when `TFCHTTPNotFound` propagates. -/
def metadataStage (cfg : Config) (env : Env) (w : Workspace) :
    List Event × Option Metadata :=
  match get_tfstate_metadata cfg env w cfg.cacheDir, get_tfstate_metadata cfg env w false with
  | (evs1, MetaFetchResult.ok m), _ => (Event.logMsg LogTag.fetchingMetadata :: evs1, some m)
  | (evs1, MetaFetchResult.notFound), _ =>
    (Event.logMsg LogTag.fetchingMetadata :: evs1, none)
  | (evs1, MetaFetchResult.jsonError), (evs2, r2) =>
    (Event.logMsg LogTag.fetchingMetadata :: evs1 ++
        [Event.logMsg LogTag.metaCorruptWarn] ++ evs2,
      match r2 with
      | MetaFetchResult.ok m => some m
      | MetaFetchResult.jsonError => none
      | MetaFetchResult.notFound => none)

/-- The tfstate block of the loop (lines 311-323) together with
`get_tfstate_content` (lines 170-193) on a successful (200) download:
the state bytes are fetched and, when caching and not in dry-run mode,
written to the cache file. -/
def contentStage (cfg : Config) (env : Env) (w : Workspace) (m : Metadata) :
    List Event × List Nat :=
  ([Event.logMsg LogTag.fetchingTfstate, Event.logMsg LogTag.downloadingTfstate] ++
      (if cfg.cacheDir && !cfg.dryRun then
        [Event.logMsg LogTag.writingTfstateFile, Event.fileWrite (w.name ++ pyStr ".tfstate")]
      else []),
    env.content m)

/-- `upload_to_s3` (lines 217-229): a real upload with a debug log, or
only a "would upload" debug log in dry-run mode. -/
def upload_to_s3 (cfg : Config) (key : PyStr) (data : List Nat) : List Event :=
  if !cfg.dryRun then
    [Event.logMsg LogTag.uploadingTfstate, Event.uploadCall cfg.bucket key data]
  else [Event.logMsg LogTag.wouldUploadTfstate]

/-- The loop-carried state of `main`: the skip list, the two counters
and the event trace.  `uploadedWsCount` is the variable
`uploaded_ws_count`; `gotWs` the `enumerate` index `got_ws`. -/
structure RunState where
  skipped : List Workspace
  uploadedWsCount : Nat
  gotWs : Nat
  events : List Event
deriving DecidableEq

/-- One iteration of the loop (lines 274-370) for workspace `w`.
On lock conflict: warn, append to the skip list unless already present,
run the `finally` unlock, continue.  On metadata not-found: warn, run
the `finally` unlock, continue.  Otherwise: fetch content, run the
`finally` unlock, derive the key (the canonical order stands in for the
set iteration order, justified by `parse_perm_eq`), upload, and set
`uploaded_ws_count = got_ws if not dry_run else 0` exactly as line 361
does. -/
def processOne (cfg : Config) (env : Env) (st : RunState) (w : Workspace) : RunState :=
  let got := st.gotWs + 1
  if lockConflicts cfg env w then
    { st with
      gotWs := got
      skipped := if w ∈ st.skipped then st.skipped else st.skipped ++ [w]
      events := st.events ++ lockEvents cfg env w ++
        [Event.logMsg LogTag.wsLockedSkipping] ++ unlockEvents cfg env w }
  else
    match metadataStage cfg env w with
    | (evs, none) =>
      { st with
        gotWs := got
        events := st.events ++ lockEvents cfg env w ++ evs ++
          [Event.logMsg LogTag.wsNoStates] ++ unlockEvents cfg env w }
    | (evs, some m) =>
      let cont := contentStage cfg env w m
      { st with
        gotWs := got
        uploadedWsCount := if cfg.dryRun then 0 else got
        events := st.events ++ lockEvents cfg env w ++ evs ++ cont.1 ++
          unlockEvents cfg env w ++
          upload_to_s3 cfg (derive_s3_key WELL_KNOWN_WORKSPACES w.name) cont.2 ++
          [if cfg.dryRun then Event.logMsg LogTag.wouldHaveUploadedInfo
            else Event.logMsg LogTag.uploadedInfo,
            Event.logMsg LogTag.processedInfo] }

/-- The end-of-run block (lines 372-383): persist a non-empty skip list
to `skipped_workspaces.json`, then print stats if requested. -/
def finalize (cfg : Config) (st : RunState) : RunState :=
  let st1 :=
    if st.skipped = [] then st
    else
      { st with events := st.events ++
          [Event.logMsg LogTag.skippedListDebug, Event.logMsg LogTag.savingSkipped,
            Event.fileWrite (pyStr "skipped_workspaces.json")] }
  if cfg.stats then
    { st1 with events := st1.events ++
        [Event.logMsg LogTag.statsTotal, Event.logMsg LogTag.statsUploaded,
          Event.logMsg LogTag.statsSkipped] }
  else st1

/-- The pre-loop block (lines 244-250): the dry-run banner, and cache
directory creation (`os.mkdir` only when it does not already exist) with
its log line, skipped entirely in dry-run mode. -/
def preamble (cfg : Config) (env : Env) : List Event :=
  (if cfg.dryRun then [Event.logMsg LogTag.dryRunBanner] else []) ++
    (if cfg.cacheDir && !cfg.dryRun then
      (if env.cacheDirPreexists then [] else [Event.mkdirCall]) ++
        [Event.logMsg LogTag.cachingTo]
    else [])

/-- The loop state right before the first iteration: empty skip list,
zero counters, and the pre-loop events. -/
def initRunState (cfg : Config) (env : Env) : RunState :=
  { skipped := [], uploadedWsCount := 0, gotWs := 0, events := preamble cfg env }

/-- The whole run of `main` over the enumerated workspaces. -/
def runMain (cfg : Config) (env : Env) (wss : List Workspace) : RunState :=
  finalize cfg (wss.foldl (processOne cfg env) (initRunState cfg env))

theorem lockConflicts_dry (cfg : Config) (env : Env) (w : Workspace)
    (h : cfg.dryRun = true) : lockConflicts cfg env w = false := by
  simp [lockConflicts, h]

theorem lockConflicts_live (cfg : Config) (env : Env) (w : Workspace)
    (hsl : cfg.skipLock = false) (hdr : cfg.dryRun = false) :
    lockConflicts cfg env w = (env.lock w == LockOutcome.conflict) := by
  simp [lockConflicts, hsl, hdr]

/-- The skip list is only touched by the lock-conflict path, which
appends the workspace unless it is already present (lines 333-337). -/
theorem processOne_skipped (cfg : Config) (env : Env) (st : RunState) (w : Workspace) :
    (processOne cfg env st w).skipped =
      if lockConflicts cfg env w then
        (if w ∈ st.skipped then st.skipped else st.skipped ++ [w])
      else st.skipped := by
  cases h : lockConflicts cfg env w
  · rcases hms : metadataStage cfg env w with ⟨evs, mo⟩
    cases mo <;> simp [processOne, h, hms]
  · simp [processOne, h]

theorem finalize_skipped (cfg : Config) (st : RunState) :
    (finalize cfg st).skipped = st.skipped := by
  unfold finalize
  by_cases h1 : st.skipped = [] <;> by_cases h2 : cfg.stats = true <;> simp [h1, h2]

theorem nodup_append_singleton {l : List Workspace} {w : Workspace}
    (hnd : l.Nodup) (hw : w ∉ l) : (l ++ [w]).Nodup := by
  have h : (w :: l).Nodup := List.nodup_cons.mpr ⟨hw, hnd⟩
  exact ((List.perm_append_singleton w l).nodup_iff).mpr h

/-- The identity check before append keeps the skip list duplicate-free. -/
theorem foldl_skipped_nodup (cfg : Config) (env : Env) :
    ∀ (wss : List Workspace) (st : RunState), st.skipped.Nodup →
      ((wss.foldl (processOne cfg env) st).skipped).Nodup := by
  intro wss
  induction wss with
  | nil => intro st h; exact h
  | cons a wss ih =>
    intro st h
    rw [List.foldl_cons]
    apply ih
    rw [processOne_skipped]
    by_cases hc : lockConflicts cfg env a = true
    · rw [if_pos hc]
      by_cases hm : a ∈ st.skipped
      · rw [if_pos hm]; exact h
      · rw [if_neg hm]; exact nodup_append_singleton h hm
    · rw [if_neg hc]; exact h

theorem processOne_skipped_mem (cfg : Config) (env : Env) (st : RunState)
    (w a : Workspace) (hsl : cfg.skipLock = false) (hdr : cfg.dryRun = false) :
    (w ∈ (processOne cfg env st a).skipped ↔
      w ∈ st.skipped ∨ (w = a ∧ env.lock a = LockOutcome.conflict)) := by
  rw [processOne_skipped, lockConflicts_live cfg env a hsl hdr]
  by_cases hc : env.lock a = LockOutcome.conflict
  · rw [hc]
    rw [if_pos (by simp)]
    by_cases hm : a ∈ st.skipped
    · rw [if_pos hm]
      constructor
      · exact Or.inl
      · rintro (hw | ⟨rfl, _⟩)
        · exact hw
        · exact hm
    · rw [if_neg hm]
      simp only [List.mem_append, List.mem_singleton]
      constructor
      · rintro (hw | rfl)
        · exact Or.inl hw
        · exact Or.inr ⟨rfl, by trivial⟩
      · rintro (hw | ⟨rfl, _⟩)
        · exact Or.inl hw
        · exact Or.inr rfl
  · rw [if_neg (by simp [hc])]
    constructor
    · exact Or.inl
    · rintro (hw | ⟨_, hcc⟩)
      · exact hw
      · exact absurd hcc hc

/-- Membership in the final skip list: a workspace is there exactly when
it was enumerated and its lock attempt conflicted (or it was there from
the start). -/
theorem foldl_skipped_mem (cfg : Config) (env : Env) (w : Workspace)
    (hsl : cfg.skipLock = false) (hdr : cfg.dryRun = false) :
    ∀ (wss : List Workspace) (st : RunState),
      (w ∈ (wss.foldl (processOne cfg env) st).skipped ↔
        w ∈ st.skipped ∨ (w ∈ wss ∧ env.lock w = LockOutcome.conflict)) := by
  intro wss
  induction wss with
  | nil => intro st; simp
  | cons a wss ih =>
    intro st
    rw [List.foldl_cons, ih, processOne_skipped_mem cfg env st w a hsl hdr]
    simp only [List.mem_cons]
    constructor
    · rintro ((hw | ⟨rfl, hca⟩) | ⟨hww, hcw⟩)
      · exact Or.inl hw
      · exact Or.inr ⟨Or.inl rfl, hca⟩
      · exact Or.inr ⟨Or.inr hww, hcw⟩
    · rintro (hw | ⟨rfl | hww, hcw⟩)
      · exact Or.inl (Or.inl hw)
      · exact Or.inl (Or.inr ⟨rfl, hcw⟩)
      · exact Or.inr ⟨hww, hcw⟩

/-- C5: for every run with locking enabled (not `--skip-lock`, not
`--dry-run`) and every workspace whose lock attempt raises Conflict,
that workspace record appears exactly once in the skipped-workspaces
list persisted at end of run, even if the same workspace is enumerated
and hits Conflict more than once during the run. -/
theorem C5_conflict_skipped_exactly_once (cfg : Config) (env : Env)
    (wss : List Workspace) (w : Workspace)
    (hsl : cfg.skipLock = false) (hdr : cfg.dryRun = false)
    (hw : w ∈ wss) (hc : env.lock w = LockOutcome.conflict) :
    ((runMain cfg env wss).skipped).count w = 1 := by
  unfold runMain
  rw [finalize_skipped]
  have hnd := foldl_skipped_nodup cfg env wss (initRunState cfg env) List.nodup_nil
  have hmem := (foldl_skipped_mem cfg env w hsl hdr wss (initRunState cfg env)).mpr
    (Or.inr ⟨hw, hc⟩)
  exact List.count_eq_one_of_mem hnd hmem

def wsConf : Workspace := { name := pyStr "locked", wid := 7 }

def envC5 : Env :=
  { lock := fun _ => LockOutcome.conflict
    unlockConflict := fun _ => true
    meta := fun _ => MetaOutcome.notFound
    content := fun _ => []
    cache := fun _ => none
    cacheDirPreexists := false }

def cfgC5 : Config :=
  { skipLock := false, dryRun := false, cacheDir := false, bucket := pyStr "bkt",
    stats := false }

theorem C5_witness :
    (cfgC5.skipLock = false ∧ cfgC5.dryRun = false ∧ wsConf ∈ [wsConf, wsConf] ∧
      envC5.lock wsConf = LockOutcome.conflict) ∧
    ((runMain cfgC5 envC5 [wsConf, wsConf]).skipped).count wsConf = 1 :=
  ⟨⟨rfl, rfl, by simp, rfl⟩,
    C5_conflict_skipped_exactly_once cfgC5 envC5 [wsConf, wsConf] wsConf rfl rfl
      (by simp) rfl⟩

def cfgC6 : Config :=
  { skipLock := false, dryRun := false, cacheDir := false, bucket := pyStr "bkt",
    stats := true }

def wsAlpha : Workspace := { name := pyStr "alpha", wid := 1 }

def wsBeta : Workspace := { name := pyStr "beta", wid := 2 }

def mBeta : Metadata := { downloadUrl := pyStr "u" }

def envC6 : Env :=
  { lock := fun _ => LockOutcome.ok
    unlockConflict := fun _ => false
    meta := fun w => if w = wsAlpha then MetaOutcome.notFound else MetaOutcome.found mBeta
    content := fun _ => [123]
    cache := fun _ => none
    cacheDirPreexists := false }

/-- Number of actual object-store uploads in a trace. -/
def countUploadCalls (evs : List Event) : Nat :=
  (evs.filter fun e =>
    match e with
    | Event.uploadCall _ _ _ => true
    | _ => false).length

/-- C6 fails on the code (code bug): with two enumerated workspaces, the
first of which has no stored state (NotFound on metadata fetch) and the
second of which uploads successfully, line 361
`uploaded_ws_count = got_ws` sets the reported uploaded counter to the
enumeration index 2, while exactly one state was actually uploaded to
the object store; the NotFound workspace is (correctly) absent from the
skip list.  The claim's equality between the reported counter and the
number of workspaces actually uploaded is violated. -/
theorem C6_uploaded_counter_bug :
    (runMain cfgC6 envC6 [wsAlpha, wsBeta]).uploadedWsCount = 2 ∧
    countUploadCalls (runMain cfgC6 envC6 [wsAlpha, wsBeta]).events = 1 ∧
    (runMain cfgC6 envC6 [wsAlpha, wsBeta]).skipped = [] := by
  decide

def cfgC7live : Config :=
  { skipLock := false, dryRun := false, cacheDir := false, bucket := pyStr "bkt",
    stats := false }

def cfgC7dry : Config :=
  { skipLock := false, dryRun := true, cacheDir := false, bucket := pyStr "bkt",
    stats := false }

def envC7 : Env :=
  { lock := fun _ => LockOutcome.ok
    unlockConflict := fun _ => false
    meta := fun _ => MetaOutcome.found mBeta
    content := fun _ => [1]
    cache := fun _ => none
    cacheDirPreexists := false }

/-- Number of emitted log entries in a trace. -/
def countLogEntries (evs : List Event) : Nat :=
  (evs.filter fun e => !e.isSideEffect).length

/-- C7 is false as stated: on a single successfully processed workspace,
the dry run emits 8 log entries while the corresponding live run emits
9 — the live run's "Locking workspace" and "Unlocking workspace" lines
have no dry-run counterpart, and the dry run adds its banner — so the
counts of log entries are not equal (the zero-side-effect half of the
claim does hold; see the amended theorem). -/
theorem C7_counterexample :
    countLogEntries (runMain cfgC7dry envC7 [wsBeta]).events ≠
      countLogEntries (runMain cfgC7live envC7 [wsBeta]).events := by
  decide

theorem lockEvents_dry (cfg : Config) (env : Env) (w : Workspace)
    (h : cfg.dryRun = true) : lockEvents cfg env w = [] := by
  simp [lockEvents, h]

theorem unlockEvents_dry (cfg : Config) (env : Env) (w : Workspace)
    (h : cfg.dryRun = true) : unlockEvents cfg env w = [] := by
  simp [unlockEvents, h]

theorem get_tfstate_metadata_dry (cfg : Config) (env : Env) (w : Workspace) (b : Bool)
    (h : cfg.dryRun = true) :
    ∀ e ∈ (get_tfstate_metadata cfg env w b).1, e.isSideEffect = false := by
  cases b <;> rcases hc : env.cache w with _ | (_ | m) <;>
    rcases hm : env.meta w with m2 | _ <;>
      simp_all [get_tfstate_metadata, Event.isSideEffect]

theorem metadataStage_dry (cfg : Config) (env : Env) (w : Workspace)
    (h : cfg.dryRun = true) :
    ∀ e ∈ (metadataStage cfg env w).1, e.isSideEffect = false := by
  intro e he
  have hfirst := get_tfstate_metadata_dry cfg env w cfg.cacheDir h
  have hsecond := get_tfstate_metadata_dry cfg env w false h
  rcases hf : get_tfstate_metadata cfg env w cfg.cacheDir with ⟨evs1, r1⟩
  rcases hs : get_tfstate_metadata cfg env w false with ⟨evs2, r2⟩
  rw [hf] at hfirst
  rw [hs] at hsecond
  unfold metadataStage at he
  rw [hf, hs] at he
  cases r1 <;>
    simp only [List.cons_append, List.append_assoc, List.mem_cons, List.mem_append,
      List.mem_singleton, List.not_mem_nil, or_false, false_or] at he <;>
    repeat
      first
      | exact he.elim
      | exact hfirst e he
      | exact hsecond e he
      | (subst he; rfl)
      | (rcases he with he | he)

theorem contentStage_dry (cfg : Config) (env : Env) (w : Workspace) (m : Metadata)
    (h : cfg.dryRun = true) :
    ∀ e ∈ (contentStage cfg env w m).1, e.isSideEffect = false := by
  simp [contentStage, h, Event.isSideEffect]

theorem upload_to_s3_dry (cfg : Config) (key : PyStr) (data : List Nat)
    (h : cfg.dryRun = true) :
    upload_to_s3 cfg key data = [Event.logMsg LogTag.wouldUploadTfstate] := by
  simp [upload_to_s3, h]

theorem processOne_dry (cfg : Config) (env : Env) (st : RunState) (w : Workspace)
    (h : cfg.dryRun = true) (hsk : st.skipped = [])
    (hev : ∀ e ∈ st.events, e.isSideEffect = false) :
    (processOne cfg env st w).skipped = [] ∧
    ∀ e ∈ (processOne cfg env st w).events, e.isSideEffect = false := by
  have hmeta := metadataStage_dry cfg env w h
  constructor
  · rw [processOne_skipped, lockConflicts_dry cfg env w h]
    simpa using hsk
  · intro e he
    unfold processOne at he
    rw [lockConflicts_dry cfg env w h] at he
    simp only [Bool.false_eq_true, if_false] at he
    rcases hms : metadataStage cfg env w with ⟨evs, mo⟩
    rw [hms] at he
    rw [hms] at hmeta
    cases mo with
    | none =>
      simp [lockEvents, unlockEvents, h] at he
      repeat
        first
        | exact he.elim
        | exact hev e he
        | exact hmeta e he
        | (subst he; rfl)
        | (subst he; simp [h, Event.isSideEffect])
        | (rcases he with he | he)
    | some m =>
      simp [lockEvents, unlockEvents, upload_to_s3, h] at he
      repeat
        first
        | exact he.elim
        | exact hev e he
        | exact hmeta e he
        | exact contentStage_dry cfg env w m h e he
        | (subst he; rfl)
        | (subst he; simp [h, Event.isSideEffect])
        | (rcases he with he | he)

theorem foldl_dry (cfg : Config) (env : Env) (h : cfg.dryRun = true) :
    ∀ (wss : List Workspace) (st : RunState),
      st.skipped = [] → (∀ e ∈ st.events, e.isSideEffect = false) →
      ((wss.foldl (processOne cfg env) st).skipped = [] ∧
        ∀ e ∈ (wss.foldl (processOne cfg env) st).events, e.isSideEffect = false) := by
  intro wss
  induction wss with
  | nil => intro st h1 h2; exact ⟨h1, h2⟩
  | cons a wss ih =>
    intro st h1 h2
    rw [List.foldl_cons]
    have hp := processOne_dry cfg env st a h h1 h2
    exact ih _ hp.1 hp.2

theorem finalize_dry_events (cfg : Config) (st : RunState) (hsk : st.skipped = [])
    (hev : ∀ e ∈ st.events, e.isSideEffect = false) :
    ∀ e ∈ (finalize cfg st).events, e.isSideEffect = false := by
  intro e he
  unfold finalize at he
  rw [if_pos hsk] at he
  by_cases hs : cfg.stats = true
  · rw [if_pos hs] at he
    simp only [List.mem_append, List.mem_cons, List.mem_singleton,
      List.not_mem_nil, or_false] at he
    rcases he with he | rfl | rfl | rfl
    · exact hev e he
    · rfl
    · rfl
    · rfl
  · rw [if_neg hs] at he
    exact hev e he

theorem preamble_dry (cfg : Config) (env : Env) (h : cfg.dryRun = true) :
    preamble cfg env = [Event.logMsg LogTag.dryRunBanner] := by
  simp [preamble, h]

/-- C7 (amended): for every input, a run in dry-run mode performs no
lock, unlock, object-store upload, directory-creation or local
file-write side effect.  (The log-count half of the original claim is
false: dry-run omits the lock/unlock log lines entirely and adds a
banner, so its log-entry count differs from the live run's; see the
counterexample.) -/
theorem C7_dry_run_no_side_effects (cfg : Config) (env : Env) (wss : List Workspace)
    (h : cfg.dryRun = true) :
    ∀ e ∈ (runMain cfg env wss).events, e.isSideEffect = false := by
  unfold runMain
  have hinit : ∀ e ∈ (initRunState cfg env).events, e.isSideEffect = false := by
    intro e he
    have he2 : e ∈ preamble cfg env := he
    rw [preamble_dry cfg env h] at he2
    simp only [List.mem_singleton] at he2
    rw [he2]
    rfl
  have hf := foldl_dry cfg env h wss (initRunState cfg env) rfl hinit
  exact finalize_dry_events cfg _ hf.1 hf.2

theorem C7_witness :
    cfgC7dry.dryRun = true ∧
    ∀ e ∈ (runMain cfgC7dry envC7 [wsBeta]).events, e.isSideEffect = false :=
  ⟨rfl, C7_dry_run_no_side_effects cfgC7dry envC7 [wsBeta] rfl⟩

/-- C8: for every workspace for which a metadata cache path is
configured (`--cache-dir`) and the cached file exists but fails to parse
as JSON, the run does not fail: the corruption is logged (the warning of
lines 305-307) and the loop falls back to a live fetch, and the metadata
used for that workspace equals the live-fetched metadata. -/
theorem C8_corrupt_cache_falls_back (cfg : Config) (env : Env) (w : Workspace)
    (m : Metadata) (hcd : cfg.cacheDir = true)
    (hcor : env.cache w = some none) (hm : env.meta w = MetaOutcome.found m) :
    (metadataStage cfg env w).2 = some m ∧
    Event.logMsg LogTag.metaCorruptWarn ∈ (metadataStage cfg env w).1 ∧
    (get_tfstate_metadata cfg env w false).2 = MetaFetchResult.ok m := by
  have h1 : get_tfstate_metadata cfg env w cfg.cacheDir =
      ([Event.logMsg LogTag.readingMetaFile, Event.logMsg LogTag.metaFileCorrupted],
        MetaFetchResult.jsonError) := by
    rw [hcd]
    simp [get_tfstate_metadata, hcor]
  have h2 : get_tfstate_metadata cfg env w false =
      ([Event.logMsg LogTag.requestingMetadata], MetaFetchResult.ok m) := by
    simp [get_tfstate_metadata, hm]
  refine ⟨?_, ?_, by rw [h2]⟩
  · unfold metadataStage
    rw [h1, h2]
  · unfold metadataStage
    rw [h1, h2]
    simp

def cfgC8 : Config :=
  { skipLock := true, dryRun := false, cacheDir := true, bucket := pyStr "bkt",
    stats := false }

def envC8 : Env :=
  { lock := fun _ => LockOutcome.ok
    unlockConflict := fun _ => false
    meta := fun _ => MetaOutcome.found mBeta
    content := fun _ => [9]
    cache := fun _ => some none
    cacheDirPreexists := true }

theorem C8_witness :
    (cfgC8.cacheDir = true ∧ envC8.cache wsBeta = some none ∧
      envC8.meta wsBeta = MetaOutcome.found mBeta) ∧
    ((metadataStage cfgC8 envC8 wsBeta).2 = some mBeta ∧
      Event.logMsg LogTag.metaCorruptWarn ∈ (metadataStage cfgC8 envC8 wsBeta).1 ∧
      (get_tfstate_metadata cfgC8 envC8 wsBeta false).2 = MetaFetchResult.ok mBeta) :=
  ⟨⟨rfl, rfl, rfl⟩, C8_corrupt_cache_falls_back cfgC8 envC8 wsBeta mBeta rfl rfl rfl⟩

/-
Model of the HTTP status handling of `get_tfstate_content`
(lines 181-186): `if response.status_code not in [requests.codes.ok]:
response.raise_for_status()`.  `requests.codes.ok` is 200, and
`Response.raise_for_status` of the requests library raises `HTTPError`
exactly for status codes in [400, 600) (4xx client errors and 5xx
server errors) — modelled below from the library's documented
behaviour.  The optional cache-file write of the same function is
modelled in `contentStage`.
-/

/-- Whether `Response.raise_for_status` of the requests library raises:
exactly for 4xx and 5xx status codes. -/
def raise_for_status_raises (status : Nat) : Bool :=
  400 ≤ status && status < 600

/-- Result of `get_tfstate_content`: the raised `HTTPError`, or the
response body bytes. -/
inductive HttpFetchResult
  | httpError
  | body (content : List Nat)
deriving DecidableEq

/-- The status handling of `get_tfstate_content` on a response with the
given final status code and body. -/
def get_tfstate_content_status (status : Nat) (content : List Nat) : HttpFetchResult :=
  if status != 200 && raise_for_status_raises status then HttpFetchResult.httpError
  else HttpFetchResult.body content

/-- A 2xx HTTP success status, the claim's notion of success. -/
def is2xx (status : Nat) : Bool := 200 ≤ status && status < 300

/-- C9 is false as stated: status 304 (Not Modified) is not a 2xx
success status, yet `get_tfstate_content` does not raise — the guard
calls `raise_for_status`, which only raises for 4xx/5xx — and the
response body is returned. -/
theorem C9_counterexample :
    is2xx 304 = false ∧
    get_tfstate_content_status 304 [7] = HttpFetchResult.body [7] := by
  decide

/-- C9 (amended): `get_tfstate_content` raises an HTTP error exactly
when the response status is a 4xx or 5xx error status; for every other
status (all 2xx, and also non-success 1xx/3xx statuses such as 304) it
returns the response body bytes. -/
theorem C9_http_error_iff_4xx_5xx (status : Nat) (content : List Nat) :
    get_tfstate_content_status status content =
      if 400 ≤ status ∧ status < 600 then HttpFetchResult.httpError
      else HttpFetchResult.body content := by
  unfold get_tfstate_content_status raise_for_status_raises
  by_cases h4 : 400 ≤ status <;> by_cases h6 : status < 600 <;>
    simp [h4, h6] <;> omega
